import Mathlib

/-!
# Verification of `@le-space/orbitdb-simple-encryption`

Shallow embedding of `src/index.js` (the `SimpleEncryption` factory and the
`isDatabaseEncrypted` detector) together with a model of the AES-GCM/PBKDF2
engine.  The engine source (`aes-gcm-pbkdf2.js`) is not part of the
repository snapshot, so the engine is modelled from the specification
(section 4.1): an ideal authenticated cipher with an injective password-to-key
derivation, an interval-partitioned nonce, and a self-describing envelope.

JavaScript values that cross the validated boundaries are modelled by
`JSValue`; the duck-type probe `value?.subarray` becomes `JSValue.hasSubarray`.
Thrown exceptions become `Except` results; the per-closure counter
`let count = 0` becomes an explicit `EncObj` state threaded through calls.
-/

/-- Model of the JavaScript values that reach the validated entry points:
`null`/`undefined`, strings, numbers, real typed arrays (which carry a
`subarray` method), and other objects, tagged with whether their `subarray`
property is truthy and with the byte payload the engine would read off them. -/
inductive JSValue where
  | nullish : JSValue
  | str : String → JSValue
  | num : Int → JSValue
  | bytes : List Nat → JSValue
  | objLike : Bool → List Nat → JSValue
  deriving DecidableEq, Repr

/-- The duck-type probe `value?.subarray` of `src/index.js`: optional chaining
makes it `undefined` (falsy) on `null`/`undefined`; strings and numbers have
no `subarray` property; typed arrays always have one; on other objects it is
whatever the object carries. -/
def JSValue.hasSubarray : JSValue → Bool
  | .nullish => false
  | .str _ => false
  | .num _ => false
  | .bytes _ => true
  | .objLike h _ => h

/-- The byte payload the engine reads from a value that passed the
`subarray` probe. -/
def JSValue.payload : JSValue → List Nat
  | .bytes b => b
  | .objLike _ b => b
  | _ => []

/-- The constructor guard of `SimpleEncryption`:
`password == null || (typeof password !== "string" && !password.subarray)`
rejects; so a password is valid iff it is non-nullish and is a string or has
a truthy `subarray`. -/
def passwordValid : JSValue → Bool
  | .nullish => false
  | .str _ => true
  | v => v.hasSubarray

/-! ## Detector data model (`isDatabaseEncrypted`) -/

/-- One decoded entry as observed by `db.all()`: the detector only inspects
whether `entry.hash` and `entry.value` are `undefined`.  `none` stands for
`undefined`, `some s` for a present field. -/
structure Entry where
  hash : Option String
  value : Option String
  deriving DecidableEq, Repr

/-- A failure raised by `db.all()`: whether it is a `TypeError` instance,
and its `message` (a thrown value without a message contributes the empty
string via `error?.message || ""`). -/
structure JSError where
  isTypeError : Bool
  message : String
  deriving DecidableEq, Repr

/-- Holds when `pat` is an initial segment of `l` (character-list version
of the start-anchored match). -/
def leadsWith : List Char → List Char → Bool
  | [], _ => true
  | _ :: _, [] => false
  | p :: ps, c :: cs => p == c && leadsWith ps cs

/-- Holds when `pat` occurs contiguously somewhere in `l`: the model of
the unanchored regex test on a message string. -/
def containsPat (pat : List Char) : List Char → Bool
  | [] => leadsWith pat []
  | c :: cs => leadsWith pat (c :: cs) || containsPat pat cs

/-- The characters of the regex literal from `src/index.js`: the word
reading, a space, and the word value wrapped in character 39 (the ASCII
apostrophe). -/
def readingValuePat : List Char :=
  "reading ".data ++ [Char.ofNat 39] ++ "value".data ++ [Char.ofNat 39]

/-- The detector `isDatabaseEncrypted` from `src/index.js`, with the outcome of the single
`await db.all()` read passed in explicitly: a raised failure is classified by
instance-of-`TypeError` plus the reading-value message test; a successful
read returns `false` on an empty entry set and otherwise tests
`all.every(entry => entry.hash !== undefined && entry.value === undefined)`.
The outer `try`/`catch` of the source makes the function total; the model
returns `Bool` on every input. -/
def isDatabaseEncrypted (r : Except JSError (List Entry)) : Bool :=
  match r with
  | .error e => e.isTypeError && containsPat readingValuePat e.message.data
  | .ok all =>
      if all.length = 0 then false
      else all.all fun entry => entry.hash.isSome && entry.value.isNone

/-! ## Substring machinery for the detector theorems -/

theorem leadsWith_iff (pat l : List Char) :
    leadsWith pat l = true ↔ ∃ q, l = pat ++ q := by
  induction pat generalizing l with
  | nil => simp [leadsWith]
  | cons p ps ih =>
      cases l with
      | nil =>
          simp [leadsWith]
      | cons c cs =>
          simp only [leadsWith, Bool.and_eq_true, beq_iff_eq, ih,
            List.cons_append, List.cons.injEq]
          constructor
          · rintro ⟨hpc, q, hq⟩
            exact ⟨q, hpc.symm, hq⟩
          · rintro ⟨q, hpc, hq⟩
            exact ⟨hpc.symm, q, hq⟩

theorem containsPat_iff (pat l : List Char) :
    containsPat pat l = true ↔ ∃ p q, l = p ++ pat ++ q := by
  induction l with
  | nil =>
      simp only [containsPat, leadsWith_iff]
      constructor
      · rintro ⟨q, hq⟩
        exact ⟨[], q, by simpa using hq⟩
      · rintro ⟨p, q, hq⟩
        rcases List.append_eq_nil.mp (List.append_eq_nil.mp hq.symm).1 with ⟨hp, hpat⟩
        exact ⟨q, by simp [hpat, (List.append_eq_nil.mp hq.symm).2]⟩
  | cons c cs ih =>
      simp only [containsPat, Bool.or_eq_true, leadsWith_iff, ih]
      constructor
      · rintro (⟨q, hq⟩ | ⟨p, q, hq⟩)
        · exact ⟨[], q, by simpa using hq⟩
        · exact ⟨c :: p, q, by simp [hq]⟩
      · rintro ⟨p, q, hq⟩
        cases p with
        | nil => exact Or.inl ⟨q, by simpa using hq⟩
        | cons d ds =>
            right
            refine ⟨ds, q, ?_⟩
            have h2 := (List.cons.injEq _ _ _ _ ▸ hq).2
            simpa [List.append_assoc] using h2

/-! ## Factory and engine (`SimpleEncryption`) -/

/-- Failures of the engine.  Modelled from the spec: `decrypt` fails when
the tag fails verification (wrong password, corrupted ciphertext, tampering)
or when the envelope is malformed; the external-interface contract
(section 6) additionally allows `encrypt` to raise an internal crypto
failure. -/
inductive CryptoErr where
  | authFailed : CryptoErr
  | malformed : CryptoErr
  | internalFailure : CryptoErr
  deriving DecidableEq, Repr

/-- Errors surfaced by the factory object: its own `new Error(msg)` throws
for invalid arguments, and whatever the engine throws, propagated unchanged. -/
inductive FactoryErr where
  | invalidArgument : String → FactoryErr
  | engineFailure : CryptoErr → FactoryErr
  deriving DecidableEq, Repr

/-- Interface of the engine object returned by `AES()`.  The factory only
uses `enc`, `dec` and `ivInterval`; `enc` is `Except`-valued because the
external-interface contract (spec section 6) allows `encrypt` to raise an
internal crypto failure. -/
structure EngineT where
  enc : List Nat → JSValue → Nat → Except CryptoErr (List Nat)
  dec : List Nat → JSValue → Except CryptoErr (List Nat)
  ivInterval : Nat

/-- State of one object returned by `SimpleEncryption`: the captured
`password` and the per-closure counter `let count = 0`. -/
structure EncObj where
  password : JSValue
  count : Nat
  deriving DecidableEq, Repr

/-- The factory `SimpleEncryption`: throws
`password must be a String or a TypedArray` unless the password is non-null
and a string or `subarray`-carrying value; otherwise returns a fresh object
whose counter starts at 0. -/
def SimpleEncryption (password : JSValue) : Except FactoryErr EncObj :=
  if passwordValid password then .ok ⟨password, 0⟩
  else .error (.invalidArgument "password must be a String or a TypedArray")

/-- Lift an engine result into the error type of the factory. -/
def liftEngine (r : Except CryptoErr (List Nat)) : Except FactoryErr (List Nat) :=
  match r with
  | .ok v => .ok v
  | .error e => .error (.engineFailure e)

/-- The object method `encrypt(value)`: throws on `!value?.subarray`, otherwise
evaluates `aes.encrypt(value, password, count++)` — JavaScript evaluates the
argument `count++` (incrementing the counter) before invoking the engine, so
the returned state carries `count + 1` whether or not the engine call
succeeds. -/
def objEncrypt (E : EngineT) (o : EncObj) (v : JSValue) :
    Except FactoryErr (List Nat) × EncObj :=
  if v.hasSubarray then
    (liftEngine (E.enc v.payload o.password o.count), ⟨o.password, o.count + 1⟩)
  else
    (.error (.invalidArgument "Data to encrypt must be a TypedArray"), o)

/-- The object method `decrypt(value)`: throws on `!value?.subarray`, otherwise
delegates `aes.decrypt(value, password)`; the counter is not touched. -/
def objDecrypt (E : EngineT) (o : EncObj) (v : JSValue) :
    Except FactoryErr (List Nat) :=
  if v.hasSubarray then liftEngine (E.dec v.payload o.password)
  else .error (.invalidArgument "Data to decrypt must be a TypedArray")

/-! ## The AES-GCM/PBKDF2 engine, modelled from the spec

`aes-gcm-pbkdf2.js` is not under `src/`.  Modelled from the spec
(section 4.1): key derivation is a deterministic, collision-free function of
the password (ideal PBKDF2); the nonce is a pair of a random component drawn
fresh at each `ivInterval` boundary (the draw stream `rand`, indexed by the
interval number) and the low-order counter value within the interval; the
envelope embeds the authentication material, the nonce material and the
ciphertext body, and `decrypt` recovers the plaintext exactly when the tag
(here: the derived key) matches, failing otherwise.  The ideal cipher keeps
the body recoverable and models tag collisions between distinct keys as
never happening. -/

/-- Modelled from the spec: PBKDF2 key derivation, an injective map from the
password value to key material (distinct passwords never collide in the
ideal model). -/
def deriveKey : JSValue → List Nat
  | .nullish => [0]
  | .str s => 1 :: s.data.map Char.toNat
  | .num n => [2, n.natAbs, if n < 0 then 1 else 0]
  | .bytes b => 3 :: b
  | .objLike true b => 4 :: b
  | .objLike false b => 5 :: b

/-- Modelled from the spec: the nonce material of the call with counter `c`
under interval size `ivI`: the random component of the current interval and
the low-order counter value within the interval. -/
def nonceOf (ivI : Nat) (rand : Nat → Nat) (c : Nat) : Nat × Nat :=
  (rand (c / ivI), c % ivI)

/-- The ciphertext envelope: authentication material binding the derived
key, the nonce material, and the body. -/
structure Envelope where
  keyTag : List Nat
  nonceRand : Nat
  nonceCtr : Nat
  body : List Nat
  deriving DecidableEq, Repr

/-- Byte layout of the envelope: length-prefixed tag, then the two nonce
components, then the body (self-describing: `decrypt` needs no side
channel). -/
def encodeEnvelope (e : Envelope) : List Nat :=
  e.keyTag.length :: e.keyTag ++ e.nonceRand :: e.nonceCtr :: e.body

/-- Parse an envelope from bytes; `none` on malformed (too short) input. -/
def decodeEnvelope : List Nat → Option Envelope
  | [] => none
  | n :: rest =>
      match rest.drop n with
      | r :: c :: body => some ⟨rest.take n, r, c, body⟩
      | _ => none

/-- Modelled from the spec: the engine operation `encrypt(plaintext, password,
counter)` — derive the key, build the nonce from the counter, seal the body
under (key, nonce) and return the envelope bytes.  Purely functional in its
three inputs and (section 4.1) never fails. -/
def AESencrypt (ivI : Nat) (rand : Nat → Nat) (plaintext : List Nat)
    (password : JSValue) (counter : Nat) : List Nat :=
  encodeEnvelope
    ⟨deriveKey password, (nonceOf ivI rand counter).1,
      (nonceOf ivI rand counter).2, plaintext⟩

/-- Modelled from the spec: the engine operation `decrypt(ciphertext, password)` —
re-derive the key, parse the envelope, verify the tag; full plaintext on
success, a decryption error on a malformed envelope or a tag mismatch. -/
def AESdecrypt (ct : List Nat) (password : JSValue) :
    Except CryptoErr (List Nat) :=
  match decodeEnvelope ct with
  | none => .error .malformed
  | some e =>
      if e.keyTag = deriveKey password then .ok e.body
      else .error .authFailed

/-- Modelled from the spec: `AES()` packages the engine operations with the
`ivInterval` constant. -/
def AES (ivI : Nat) (rand : Nat → Nat) : EngineT :=
  ⟨fun p pw c => .ok (AESencrypt ivI rand p pw c), AESdecrypt, ivI⟩

/-! ## Engine lemmas -/

/-- Recover the password value from derived key material: a left inverse of
`deriveKey`, witnessing that the ideal key derivation never collides. -/
def underiveKey : List Nat → JSValue
  | 0 :: _ => .nullish
  | 1 :: cs => .str (String.mk (cs.map Char.ofNat))
  | 2 :: a :: s :: _ => .num (if s = 1 then -(a : Int) else (a : Int))
  | 3 :: b => .bytes b
  | 4 :: b => .objLike true b
  | 5 :: b => .objLike false b
  | _ => .nullish

theorem underiveKey_deriveKey (v : JSValue) : underiveKey (deriveKey v) = v := by
  cases v with
  | nullish => rfl
  | str s =>
      cases s with
      | mk cs =>
          simp [deriveKey, underiveKey, List.map_map, Function.comp_def,
            Char.ofNat_toNat]
  | num n =>
      by_cases hn : n < 0
      · have ha : -((n.natAbs : Int)) = n := by omega
        simp [deriveKey, underiveKey, if_pos hn, ha]
        rw [abs_of_neg hn, neg_neg]
      · have ha : ((n.natAbs : Int)) = n := by omega
        have h0 : ¬((0 : Nat) = 1) := by omega
        simp only [deriveKey, underiveKey, if_neg hn, if_neg h0, ha]
  | bytes b => rfl
  | objLike h b => cases h <;> rfl

theorem deriveKey_injective : Function.Injective deriveKey :=
  Function.LeftInverse.injective underiveKey_deriveKey

theorem decodeEnvelope_encodeEnvelope (e : Envelope) :
    decodeEnvelope (encodeEnvelope e) = some e := by
  show decodeEnvelope
      (e.keyTag.length :: (e.keyTag ++ e.nonceRand :: e.nonceCtr :: e.body))
        = some e
  simp [decodeEnvelope, List.drop_left, List.take_left]

/-- Round trip at the engine level: decrypting with the encrypting password
recovers the plaintext, at every counter value. -/
theorem AESdecrypt_AESencrypt (ivI : Nat) (rand : Nat → Nat) (p : List Nat)
    (pw : JSValue) (c : Nat) :
    AESdecrypt (AESencrypt ivI rand p pw c) pw = .ok p := by
  simp [AESdecrypt, AESencrypt, decodeEnvelope_encodeEnvelope]

/-- Wrong password at the engine level: the tag check fails for any password
whose derived key differs. -/
theorem AESdecrypt_wrong_password (ivI : Nat) (rand : Nat → Nat) (p : List Nat)
    (pw pw2 : JSValue) (c : Nat) (hne : pw ≠ pw2) :
    AESdecrypt (AESencrypt ivI rand p pw c) pw2 = .error .authFailed := by
  have hk : deriveKey pw ≠ deriveKey pw2 := fun h => hne (deriveKey_injective h)
  simp [AESdecrypt, AESencrypt, decodeEnvelope_encodeEnvelope, hk]

/-! ## Call-sequence semantics -/

/-- Run a sequence of `encrypt` calls against one object, threading the
counter state. -/
def runEncrypts (E : EngineT) (o : EncObj) : List JSValue → EncObj
  | [] => o
  | v :: vs => runEncrypts E (objEncrypt E o v).2 vs

/-- The counter values the object hands to the engine along a sequence of
`encrypt` calls (`objEncrypt` delegates with the current `count` exactly
when the argument passes the `subarray` probe). -/
def observedCounters (E : EngineT) (o : EncObj) : List JSValue → List Nat
  | [] => []
  | v :: vs =>
      if v.hasSubarray then o.count :: observedCounters E (objEncrypt E o v).2 vs
      else observedCounters E (objEncrypt E o v).2 vs

/-- Interleaved execution of `encrypt` calls against two independently
constructed objects: each step addresses the first object (`true`) or the
second (`false`). -/
def run2 (E : EngineT) (p : EncObj × EncObj) : List (Bool × JSValue) → EncObj × EncObj
  | [] => p
  | st :: cs =>
      if st.1 then run2 E ((objEncrypt E p.1 st.2).2, p.2) cs
      else run2 E (p.1, (objEncrypt E p.2 st.2).2) cs

theorem observedCounters_eq_range' (E : EngineT) (vs : List JSValue)
    (o : EncObj) :
    observedCounters E o vs
      = List.range' o.count (vs.countP JSValue.hasSubarray) := by
  induction vs generalizing o with
  | nil => simp [observedCounters, List.countP_nil]
  | cons v vs ih =>
      by_cases h : v.hasSubarray <;>
        simp [observedCounters, h, objEncrypt, List.countP_cons, ih,
          List.range'_succ]

theorem runEncrypts_password (E : EngineT) (vs : List JSValue) (o : EncObj) :
    (runEncrypts E o vs).password = o.password := by
  induction vs generalizing o with
  | nil => rfl
  | cons v vs ih =>
      by_cases h : v.hasSubarray <;> simp [runEncrypts, objEncrypt, h, ih]

theorem run2_fst (E : EngineT) (cs : List (Bool × JSValue)) (p : EncObj × EncObj) :
    (run2 E p cs).1 = runEncrypts E p.1 ((cs.filter fun c => c.1).map fun c => c.2) := by
  induction cs generalizing p with
  | nil => rfl
  | cons c cs ih =>
      by_cases h : c.1 <;>
        simp [run2, h, List.filter_cons, runEncrypts, ih]

theorem run2_snd (E : EngineT) (cs : List (Bool × JSValue)) (p : EncObj × EncObj) :
    (run2 E p cs).2 = runEncrypts E p.2 ((cs.filter fun c => !c.1).map fun c => c.2) := by
  induction cs generalizing p with
  | nil => rfl
  | cons c cs ih =>
      by_cases h : c.1 <;>
        simp [run2, h, List.filter_cons, runEncrypts, ih]

/-! ## Claim theorems -/

/-- C1: for every byte-sequence plaintext `p` and every password `k`,
decrypting the output of `encrypt(p)` with a `SimpleEncryption` object
constructed for `k` returns exactly the original bytes `p`. -/
theorem C1_round_trip (ivI : Nat) (rand : Nat → Nat) (k : JSValue)
    (o : EncObj) (h : SimpleEncryption k = .ok o) (p : List Nat) :
    (objEncrypt (AES ivI rand) o (.bytes p)).1
        = .ok (AESencrypt ivI rand p k o.count) ∧
    objDecrypt (AES ivI rand) (objEncrypt (AES ivI rand) o (.bytes p)).2
        (.bytes (AESencrypt ivI rand p k o.count)) = .ok p := by
  have ho : o = ⟨k, 0⟩ := by
    unfold SimpleEncryption at h
    split at h
    · injection h with h
      exact h.symm
    · cases h
  subst ho
  constructor
  · simp [objEncrypt, JSValue.hasSubarray, JSValue.payload, AES, liftEngine]
  · simp [objDecrypt, objEncrypt, JSValue.hasSubarray, JSValue.payload, AES,
      liftEngine, AESdecrypt_AESencrypt]

/-- Witness for C1: password "k", `ivInterval` 4, plaintext `[1, 2, 3]`,
first call. -/
theorem C1_round_trip_witness :
    (objEncrypt (AES 4 id) ⟨.str "k", 0⟩ (.bytes [1, 2, 3])).1
        = .ok (AESencrypt 4 id [1, 2, 3] (.str "k") 0) ∧
    objDecrypt (AES 4 id) (objEncrypt (AES 4 id) ⟨.str "k", 0⟩ (.bytes [1, 2, 3])).2
        (.bytes (AESencrypt 4 id [1, 2, 3] (.str "k") 0)) = .ok [1, 2, 3] :=
  C1_round_trip 4 id (.str "k") ⟨.str "k", 0⟩ rfl [1, 2, 3]

/-- C2: decrypting, under an object constructed with `k2`, a ciphertext
produced by `encrypt` under an object constructed with `k1 ≠ k2` fails with
a decryption error, never returning a plaintext. -/
theorem C2_wrong_password_rejection (ivI : Nat) (rand : Nat → Nat)
    (k1 k2 : JSValue) (o1 o2 : EncObj) (h1 : SimpleEncryption k1 = .ok o1)
    (h2 : SimpleEncryption k2 = .ok o2) (hne : k1 ≠ k2)
    (p ct : List Nat)
    (henc : (objEncrypt (AES ivI rand) o1 (.bytes p)).1 = .ok ct) :
    objDecrypt (AES ivI rand) o2 (.bytes ct)
      = .error (.engineFailure .authFailed) := by
  have ho1 : o1 = ⟨k1, 0⟩ := by
    unfold SimpleEncryption at h1
    split at h1
    · injection h1 with h1
      exact h1.symm
    · cases h1
  have ho2 : o2 = ⟨k2, 0⟩ := by
    unfold SimpleEncryption at h2
    split at h2
    · injection h2 with h2
      exact h2.symm
    · cases h2
  subst ho1
  subst ho2
  have hct : ct = AESencrypt ivI rand p k1 0 := by
    simp [objEncrypt, JSValue.hasSubarray, JSValue.payload, AES, liftEngine] at henc
    exact henc.symm
  subst hct
  simp [objDecrypt, JSValue.hasSubarray, JSValue.payload, AES, liftEngine,
    AESdecrypt_wrong_password ivI rand p k1 k2 0 hne]

/-- Witness for C2: passwords "a" and "b", plaintext `[9]`. -/
theorem C2_wrong_password_rejection_witness :
    objDecrypt (AES 4 id) ⟨.str "b", 0⟩
        (.bytes (AESencrypt 4 id [9] (.str "a") 0))
      = .error (.engineFailure .authFailed) :=
  C2_wrong_password_rejection 4 id (.str "a") (.str "b") ⟨.str "a", 0⟩
    ⟨.str "b", 0⟩ rfl rfl (by decide) [9] _ rfl

/-- C3: for a fixed derived key, no two encrypt calls use the same nonce:
for any two distinct counter values the interval-partitioned nonce material
differs (given that the per-interval random draws are fresh, i.e. the draw
stream is injective), and the envelope of each call carries exactly that
nonce material. -/
theorem C3_nonce_uniqueness (ivI : Nat) (rand : Nat → Nat)
    (hrand : Function.Injective rand) (i j : Nat) (hij : i ≠ j)
    (p1 p2 : List Nat) (pw : JSValue) :
    nonceOf ivI rand i ≠ nonceOf ivI rand j ∧
    ((decodeEnvelope (AESencrypt ivI rand p1 pw i)).map
        fun e => (e.nonceRand, e.nonceCtr)) = some (nonceOf ivI rand i) ∧
    ((decodeEnvelope (AESencrypt ivI rand p2 pw j)).map
        fun e => (e.nonceRand, e.nonceCtr)) = some (nonceOf ivI rand j) := by
  refine ⟨?_, by simp [AESencrypt, decodeEnvelope_encodeEnvelope, nonceOf],
    by simp [AESencrypt, decodeEnvelope_encodeEnvelope, nonceOf]⟩
  intro hEq
  have h1 : rand (i / ivI) = rand (j / ivI) := congrArg Prod.fst hEq
  have h2 : i % ivI = j % ivI := congrArg Prod.snd hEq
  have h3 : i / ivI = j / ivI := hrand h1
  have hi := Nat.div_add_mod i ivI
  have hj := Nat.div_add_mod j ivI
  have : i = ivI * (j / ivI) + j % ivI := by
    rw [← h3, ← h2]
    exact hi.symm
  exact hij (this.trans hj)

/-- Witness for C3: interval size 2, identity draw stream, counters 0 and 1. -/
theorem C3_nonce_uniqueness_witness :
    nonceOf 2 id 0 = (0, 0) ∧ nonceOf 2 id 1 = (0, 1) ∧
    nonceOf 2 id 0 ≠ nonceOf 2 id 1 :=
  ⟨by decide, by decide,
    (C3_nonce_uniqueness 2 id Function.injective_id 0 1 (by decide) [] []
      (.str "k")).1⟩

/-- C4 (amended): an `encrypt` call that fails the invalid-argument check
leaves the counter unchanged; but a call that passes validation increments
the counter before the engine runs (`count++` is evaluated as part of the
argument list), so the counter is incremented even when the delegated engine
encrypt raises. -/
theorem C4_counter_on_failed_encrypt (E : EngineT) (o : EncObj) (v : JSValue) :
    ((objEncrypt E o v).1
        = .error (.invalidArgument "Data to encrypt must be a TypedArray") →
      (objEncrypt E o v).2 = o) ∧
    (v.hasSubarray = true → ((objEncrypt E o v).2).count = o.count + 1) := by
  by_cases h : v.hasSubarray
  · constructor
    · intro hres
      exfalso
      rcases he : E.enc v.payload o.password o.count with ct | e <;>
        simp [objEncrypt, h, liftEngine, he] at hres
    · intro _
      simp [objEncrypt, h]
  · constructor
    · intro _
      simp [objEncrypt, h]
    · intro hv
      exact absurd hv h

/-- Witness for C4: a validation failure leaves the state untouched; a
delegating call moves the counter from 3 to 4. -/
theorem C4_counter_on_failed_encrypt_witness :
    (objEncrypt (AES 2 id) ⟨.str "w", 0⟩ .nullish).2 = ⟨.str "w", 0⟩ ∧
    ((objEncrypt (AES 2 id) ⟨.str "w", 3⟩ (.bytes [5])).2).count = 3 + 1 :=
  ⟨(C4_counter_on_failed_encrypt (AES 2 id) ⟨.str "w", 0⟩ .nullish).1 rfl,
   (C4_counter_on_failed_encrypt (AES 2 id) ⟨.str "w", 3⟩ (.bytes [5])).2 rfl⟩

/-- Modelled from the spec: an engine whose `encrypt` raises an internal
crypto failure — the external-interface contract (section 6) allows
`encrypt(plaintext: bytes) -> bytes` to raise an internal crypto failure,
and the engine source is not part of the repository snapshot. -/
def failingEngine : EngineT :=
  ⟨fun _ _ _ => .error .internalFailure, fun _ _ => .error .internalFailure, 4⟩

/-- Counterexample to C4 as stated: on an object with counter 0, an
`encrypt([1])` call whose delegated engine encrypt raises does fail, yet it
leaves the counter at 1, not 0 — the increment happens during argument
evaluation, before the engine can raise. -/
theorem C4_counterexample :
    (objEncrypt failingEngine ⟨.str "pw", 0⟩ (.bytes [1])).1
        = .error (.engineFailure .internalFailure) ∧
    ((objEncrypt failingEngine ⟨.str "pw", 0⟩ (.bytes [1])).2).count = 1 :=
  ⟨rfl, rfl⟩

/-- C5: on one object the counter starts at 0, each delegating call hands
the engine the current counter value and then increments (so the n-th
successful call observes exactly n), the counter never decreases, and no two
calls observe the same counter value. -/
theorem C5_counter_discipline (ivI : Nat) (rand : Nat → Nat) (pw : JSValue)
    (o : EncObj) (h : SimpleEncryption pw = .ok o) (vs : List JSValue) :
    observedCounters (AES ivI rand) o vs
        = List.range (vs.countP JSValue.hasSubarray) ∧
    (observedCounters (AES ivI rand) o vs).Nodup ∧
    (∀ v : JSValue, o.count ≤ ((objEncrypt (AES ivI rand) o v).2).count) ∧
    (∀ (o2 : EncObj) (v : JSValue), v.hasSubarray = true →
      objEncrypt (AES ivI rand) o2 v
        = (.ok (AESencrypt ivI rand v.payload o2.password o2.count),
            ⟨o2.password, o2.count + 1⟩)) := by
  have ho : o = ⟨pw, 0⟩ := by
    unfold SimpleEncryption at h
    split at h
    · injection h with h
      exact h.symm
    · cases h
  subst ho
  refine ⟨?_, ?_, fun v => ?_, fun o2 v hv => ?_⟩
  · rw [observedCounters_eq_range', List.range_eq_range']
  · rw [observedCounters_eq_range']
    exact List.nodup_range' ..
  · by_cases hv : v.hasSubarray <;> simp [objEncrypt, hv]
  · simp [objEncrypt, hv, AES, liftEngine]

/-- Witness for C5: three calls, the second failing validation: the
delegating calls observe counters 0 and 1. -/
theorem C5_counter_discipline_witness :
    observedCounters (AES 3 id) ⟨.str "k", 0⟩
        [.bytes [1], .nullish, .bytes [2]] = [0, 1] := by
  have h := C5_counter_discipline 3 id (.str "k") ⟨.str "k", 0⟩ rfl
      [.bytes [1], .nullish, .bytes [2]]
  exact h.1.trans (by decide)

/-- C6: when the read succeeds, the detector returns `true` exactly when the
entry set is non-empty and every entry has a present hash field and an
absent value field; the empty entry set yields `false`. -/
theorem C6_detector_on_successful_read (l : List Entry) :
    (isDatabaseEncrypted (.ok l) = true ↔
      l ≠ [] ∧ ∀ e ∈ l, e.hash.isSome = true ∧ e.value.isNone = true) ∧
    isDatabaseEncrypted (.ok []) = false := by
  refine ⟨?_, by simp [isDatabaseEncrypted]⟩
  rcases eq_or_ne l [] with rfl | hl
  · simp [isDatabaseEncrypted]
  · simp [isDatabaseEncrypted, List.length_eq_zero, hl, List.all_eq_true]

/-- C7: when the read fails, the detector returns `true` exactly when the
failure is a `TypeError` whose message contains the reading-value pattern,
`false` on every other failure; and on every input the detector returns a
boolean (no exception escapes). -/
theorem C7_detector_on_failed_read :
    (∀ e : JSError, isDatabaseEncrypted (.error e) = true ↔
      e.isTypeError = true ∧
        ∃ p q, e.message.data = p ++ readingValuePat ++ q) ∧
    (∀ r : Except JSError (List Entry),
      isDatabaseEncrypted r = true ∨ isDatabaseEncrypted r = false) := by
  constructor
  · intro e
    simp [isDatabaseEncrypted, containsPat_iff]
  · intro r
    cases hb : isDatabaseEncrypted r
    · exact Or.inr rfl
    · exact Or.inl rfl

/-- C8: construction fails with the invalid-argument error exactly when the
password is nullish or neither a string nor `subarray`-carrying; `encrypt`
and `decrypt` fail with their invalid-argument errors, without delegating to
any engine, on every non-byte-sequence argument — in particular on plain
strings and numbers, which never pass the probe. -/
theorem C8_argument_validation :
    (∀ pw : JSValue, passwordValid pw = false ↔
      SimpleEncryption pw
        = .error (.invalidArgument "password must be a String or a TypedArray")) ∧
    (∀ (E : EngineT) (o : EncObj) (v : JSValue), v.hasSubarray = false →
      objEncrypt E o v
          = (.error (.invalidArgument "Data to encrypt must be a TypedArray"), o) ∧
      objDecrypt E o v
          = .error (.invalidArgument "Data to decrypt must be a TypedArray")) ∧
    (∀ s : String, (JSValue.str s).hasSubarray = false) ∧
    (∀ n : Int, (JSValue.num n).hasSubarray = false) := by
  refine ⟨fun pw => ⟨fun hpw => ?_, fun hS => ?_⟩,
    fun E o v hv => ⟨by simp [objEncrypt, hv], by simp [objDecrypt, hv]⟩,
    fun s => rfl, fun n => rfl⟩
  · simp [SimpleEncryption, hpw]
  · cases hb : passwordValid pw
    · rfl
    · simp [SimpleEncryption, hb] at hS

/-- Witness for C8: a nullish password, a string payload to `encrypt`, a
numeric payload to `decrypt`. -/
theorem C8_argument_validation_witness :
    SimpleEncryption .nullish
        = .error (.invalidArgument "password must be a String or a TypedArray") ∧
    objEncrypt (AES 2 id) ⟨.str "k", 0⟩ (.str "oops")
        = (.error (.invalidArgument "Data to encrypt must be a TypedArray"),
            ⟨.str "k", 0⟩) ∧
    objDecrypt (AES 2 id) ⟨.str "k", 0⟩ (.num 5)
        = .error (.invalidArgument "Data to decrypt must be a TypedArray") :=
  ⟨(C8_argument_validation.1 .nullish).mp rfl,
   (C8_argument_validation.2.1 (AES 2 id) ⟨.str "k", 0⟩ (.str "oops") rfl).1,
   (C8_argument_validation.2.1 (AES 2 id) ⟨.str "k", 0⟩ (.num 5) rfl).2⟩

/-- C9: two independently constructed objects have independent counters:
in any interleaved sequence of `encrypt` calls, the final state of each
object is a function of its own calls alone; in particular a sequence addressed to the
first object leaves the second object untouched. -/
theorem C9_independent_counters (E : EngineT) (pw1 pw2 : JSValue)
    (o1 o2 : EncObj) (h1 : SimpleEncryption pw1 = .ok o1)
    (h2 : SimpleEncryption pw2 = .ok o2) (cs : List (Bool × JSValue)) :
    (run2 E (o1, o2) cs).2
        = runEncrypts E o2 ((cs.filter fun c => !c.1).map fun c => c.2) ∧
    (run2 E (o1, o2) cs).1
        = runEncrypts E o1 ((cs.filter fun c => c.1).map fun c => c.2) ∧
    ((∀ c ∈ cs, c.1 = true) → (run2 E (o1, o2) cs).2 = o2) := by
  refine ⟨run2_snd E cs (o1, o2), run2_fst E cs (o1, o2), fun hall => ?_⟩
  rw [run2_snd]
  have hnil : (cs.filter fun c => !c.1) = [] := by
    rw [List.filter_eq_nil_iff]
    intro c hc
    simp [hall c hc]
  rw [hnil]
  rfl

/-- Witness for C9: three calls on the first object (same password "a" on
both objects) leave the second object at counter 0. -/
theorem C9_independent_counters_witness :
    (run2 (AES 2 id) (⟨.str "a", 0⟩, ⟨.str "a", 0⟩)
        [(true, .bytes [1]), (true, .bytes [2]), (true, .nullish)]).2
      = ⟨.str "a", 0⟩ := by
  have h := C9_independent_counters (AES 2 id) (.str "a") (.str "a")
      ⟨.str "a", 0⟩ ⟨.str "a", 0⟩ rfl rfl
      [(true, .bytes [1]), (true, .bytes [2]), (true, .nullish)]
  exact h.2.2 (by decide)

/-- C10: the byte-sequence check in `encrypt` and `decrypt` is exactly the
truthiness of the `subarray` probe: validation passes iff the probe
succeeds, any probe-passing value (not only a real typed array) is forwarded
to the engine, and any probe-passing password is accepted at construction. -/
theorem C10_duck_type_probe :
    (∀ (E : EngineT) (o : EncObj) (v : JSValue),
      (v.hasSubarray = true →
        objEncrypt E o v
            = (liftEngine (E.enc v.payload o.password o.count),
                ⟨o.password, o.count + 1⟩) ∧
        objDecrypt E o v = liftEngine (E.dec v.payload o.password)) ∧
      (v.hasSubarray = false →
        objEncrypt E o v
            = (.error (.invalidArgument "Data to encrypt must be a TypedArray"), o) ∧
        objDecrypt E o v
            = .error (.invalidArgument "Data to decrypt must be a TypedArray"))) ∧
    (∀ v : JSValue, v.hasSubarray = true → passwordValid v = true) ∧
    (∀ b : List Nat, (JSValue.objLike true b).hasSubarray = true ∧
      SimpleEncryption (.objLike true b) = .ok ⟨.objLike true b, 0⟩) := by
  refine ⟨fun E o v =>
      ⟨fun hv => ⟨by simp [objEncrypt, hv], by simp [objDecrypt, hv]⟩,
       fun hv => ⟨by simp [objEncrypt, hv], by simp [objDecrypt, hv]⟩⟩,
    fun v hv => ?_, fun b => ⟨rfl, rfl⟩⟩
  cases v <;> simp_all [JSValue.hasSubarray, passwordValid]

/-- Witness for C10: a `subarray`-carrying plain object is forwarded to the
engine and accepted as a password. -/
theorem C10_duck_type_probe_witness :
    objEncrypt (AES 2 id) ⟨.str "k", 5⟩ (.objLike true [1, 2])
        = (.ok (AESencrypt 2 id [1, 2] (.str "k") 5), ⟨.str "k", 6⟩) ∧
    passwordValid (.objLike true [3]) = true :=
  ⟨((C10_duck_type_probe.1 (AES 2 id) ⟨.str "k", 5⟩ (.objLike true [1, 2])).1 rfl).1,
   C10_duck_type_probe.2.1 (.objLike true [3]) rfl⟩
